import Mathlib

/-!
Verification of the p2p repository's core subsystems against its
natural-language specification.

The development shallowly embeds:
  - the sync-protocol wire codec generated in
    `src/protocols/automerge/src/messages/messages.rs` (the `Message`
    envelope and its six variants, with the tag/length/value scheme);
  - the connection handler of `src/protocols/automerge/src/handler.rs`;
  - the sync-coordinator behaviour of
    `src/protocols/automerge/src/behaviour.rs`;
  - the overlay orchestration actor of `src/peer/src/swarm_dispatch.rs`
    and the database-manager subscriber of
    `src/peer/src/database_manager.rs`.

Machine integers are modelled as `Nat`; byte strings as `List Nat`
(each entry a byte value).  Panics (`unwrap` on `None`) are modelled by
`Option`-valued handlers returning `none`.
-/

/-! ## Wire codec primitives

Modelled from the spec: the repository's generated codec calls into the
external `quick_protobuf` crate (absent from the sources) for its
primitive readers and writers.  Per spec section 4.1 the scheme is
tag/length/value: every field is preceded by a small integer field tag
written as a base-128 varint; strings, byte sequences and nested
messages are length-delimited; unrecognized tags are skipped by wire
type.  `writeVarint`/`readVarint` and the length-delimited helpers
below model those primitives (UTF-8 validation of strings is abstracted
away: strings are raw byte sequences). -/

/-- A byte string: a list of byte values. -/
abbrev Bytes := List Nat

/-- Base-128 little-endian varint encoding of a natural number. -/
def writeVarint (n : Nat) : Bytes :=
  if n < 128 then [n]
  else (n % 128 + 128) :: writeVarint (n / 128)
termination_by n
decreasing_by exact Nat.div_lt_self (by omega) (by omega)

/-- Varint decoding: returns the value and the remaining bytes. -/
def readVarint : Bytes → Option (Nat × Bytes)
  | [] => none
  | b :: tl =>
    if b < 128 then some (b, tl)
    else
      match readVarint tl with
      | some (v, rest) => some ((b - 128) + 128 * v, rest)
      | none => none

/-- A length-delimited payload: varint length followed by the payload. -/
def writeLenDelim (p : Bytes) : Bytes :=
  writeVarint p.length ++ p

/-- Reads a length-delimited payload: varint length, then that many
bytes; fails when fewer bytes remain. -/
def readLenDelim (bs : Bytes) : Option (Bytes × Bytes) :=
  match readVarint bs with
  | some (len, rest) =>
    if len ≤ rest.length then some (rest.take len, rest.drop len) else none
  | none => none

/-- Skips one unknown field of tag `t` according to its wire type
(`t % 8`): 0 varint, 1 eight fixed bytes, 2 length-delimited, 5 four
fixed bytes; other wire types are a decode error. -/
def readUnknown (t : Nat) (bs : Bytes) : Option Bytes :=
  match t % 8 with
  | 0 => (readVarint bs).map Prod.snd
  | 1 => if 8 ≤ bs.length then some (bs.drop 8) else none
  | 2 => (readLenDelim bs).map Prod.snd
  | 5 => if 4 ≤ bs.length then some (bs.drop 4) else none
  | _ => none

theorem writeVarint_ne_nil (n : Nat) : writeVarint n ≠ [] := by
  rw [writeVarint]
  split <;> simp

theorem readVarint_writeVarint (n : Nat) (rest : Bytes) :
    readVarint (writeVarint n ++ rest) = some (n, rest) := by
  induction n using Nat.strong_induction_on with
  | _ n ih =>
    rw [writeVarint]
    by_cases h : n < 128
    · simp [h, readVarint]
    · have hdiv : n / 128 < n := Nat.div_lt_self (by omega) (by omega)
      simp only [if_neg h, List.cons_append, readVarint]
      have hge : ¬ (n % 128 + 128 < 128) := by omega
      simp only [if_neg hge, ih (n / 128) hdiv]
      have h2 := Nat.mod_add_div n 128
      simp only [Option.some.injEq, Prod.mk.injEq]
      exact ⟨by omega, trivial⟩

theorem readVarint_length_lt {bs rest : Bytes} {v : Nat}
    (h : readVarint bs = some (v, rest)) : rest.length < bs.length := by
  induction bs generalizing v rest with
  | nil => simp [readVarint] at h
  | cons b tl ih =>
    simp only [readVarint] at h
    split at h
    · cases h; simp
    · cases htl : readVarint tl with
      | none => simp [htl] at h
      | some p =>
        obtain ⟨v', rest'⟩ := p
        rw [htl] at h
        cases h
        have := ih htl
        simp; omega

theorem take_append_len (xs ys : Bytes) : (xs ++ ys).take xs.length = xs := by
  induction xs with
  | nil => simp
  | cons a tl ih => simp [ih]

theorem drop_append_len (xs ys : Bytes) : (xs ++ ys).drop xs.length = ys := by
  induction xs with
  | nil => simp
  | cons a tl ih => simp [ih]

theorem readLenDelim_write (p : Bytes) (rest : Bytes) :
    readLenDelim (writeLenDelim p ++ rest) = some (p, rest) := by
  simp only [readLenDelim, writeLenDelim, List.append_assoc, readVarint_writeVarint]
  simp [take_append_len, drop_append_len]

theorem readLenDelim_length_lt {bs p rest : Bytes}
    (h : readLenDelim bs = some (p, rest)) : rest.length < bs.length := by
  cases hv : readVarint bs with
  | none => simp [readLenDelim, hv] at h
  | some q =>
    obtain ⟨len, mid⟩ := q
    have hlt := readVarint_length_lt hv
    by_cases hle : len ≤ mid.length
    · simp only [readLenDelim, hv, if_pos hle, Option.some.injEq, Prod.mk.injEq] at h
      obtain ⟨h1, h2⟩ := h
      subst h2
      simp only [List.length_drop]
      omega
    · simp [readLenDelim, hv, if_neg hle] at h

theorem readUnknown_length_le {t : Nat} {bs rest : Bytes}
    (h : readUnknown t bs = some rest) : rest.length ≤ bs.length := by
  simp only [readUnknown] at h
  split at h
  · cases hv : readVarint bs with
    | none => rw [hv] at h; cases h
    | some p =>
      obtain ⟨v, r⟩ := p
      rw [hv] at h
      cases h
      exact (readVarint_length_lt hv).le
  · by_cases h8 : 8 ≤ bs.length
    · rw [if_pos h8] at h
      cases h
      simp
    · rw [if_neg h8] at h
      cases h
  · cases hv : readLenDelim bs with
    | none => rw [hv] at h; cases h
    | some p =>
      obtain ⟨v, r⟩ := p
      rw [hv] at h
      cases h
      exact (readLenDelim_length_lt hv).le
  · by_cases h4 : 4 ≤ bs.length
    · rw [if_pos h4] at h
      cases h
      simp
    · rw [if_neg h4] at h
      cases h
  · cases h

/-! ## The generated decoder loop

Every `from_reader` in `messages/messages.rs` has the same shape: while
the reader is not at end of input, read the next tag varint, then
dispatch on it (each generated decoder differing only in its dispatch).
`decodeFields step fuel acc bs` embeds that loop with an explicit
structural fuel; the wrappers below always supply `bs.length + 1`,
which `decodeFields_fuel_congr` shows is enough whenever the dispatch
consumes no more than its input (every dispatch in this file does). -/

def decodeFields {α : Type} (step : α → Nat → Bytes → Option (α × Bytes)) :
    Nat → α → Bytes → Option α
  | 0, _, _ => none
  | _ + 1, acc, [] => some acc
  | fuel + 1, acc, b :: tl =>
    match readVarint (b :: tl) with
    | none => none
    | some (t, rest) =>
      match step acc t rest with
      | none => none
      | some (acc2, rest2) => decodeFields step fuel acc2 rest2

/-- The same loop, additionally returning the sequence of field tags
read from the input, in order. -/
def decodeFieldsTrace {α : Type} (step : α → Nat → Bytes → Option (α × Bytes)) :
    Nat → α → Bytes → Option (α × List Nat)
  | 0, _, _ => none
  | _ + 1, acc, [] => some (acc, [])
  | fuel + 1, acc, b :: tl =>
    match readVarint (b :: tl) with
    | none => none
    | some (t, rest) =>
      match step acc t rest with
      | none => none
      | some (acc2, rest2) =>
        (decodeFieldsTrace step fuel acc2 rest2).map (fun q => (q.1, t :: q.2))

theorem decodeFields_nil {α : Type} (step : α → Nat → Bytes → Option (α × Bytes))
    (f : Nat) (acc : α) : decodeFields step (f + 1) acc [] = some acc := rfl

theorem decodeFields_tag {α : Type} (step : α → Nat → Bytes → Option (α × Bytes))
    (f : Nat) (acc : α) (t : Nat) (bs : Bytes) :
    decodeFields step (f + 1) acc (writeVarint t ++ bs) =
      match step acc t bs with
      | none => none
      | some p => decodeFields step f p.1 p.2 := by
  have hr := readVarint_writeVarint t bs
  cases hw : writeVarint t with
  | nil => exact absurd hw (writeVarint_ne_nil t)
  | cons b tl =>
    rw [hw] at hr
    simp only [List.cons_append] at hr ⊢
    simp only [decodeFields, hr]
    cases step acc t bs with
    | none => rfl
    | some p => cases p; rfl

theorem decodeFieldsTrace_tag {α : Type} (step : α → Nat → Bytes → Option (α × Bytes))
    (f : Nat) (acc : α) (t : Nat) (bs : Bytes) :
    decodeFieldsTrace step (f + 1) acc (writeVarint t ++ bs) =
      match step acc t bs with
      | none => none
      | some p => (decodeFieldsTrace step f p.1 p.2).map (fun q => (q.1, t :: q.2)) := by
  have hr := readVarint_writeVarint t bs
  cases hw : writeVarint t with
  | nil => exact absurd hw (writeVarint_ne_nil t)
  | cons b tl =>
    rw [hw] at hr
    simp only [List.cons_append] at hr ⊢
    simp only [decodeFieldsTrace, hr]
    cases step acc t bs with
    | none => rfl
    | some p => cases p; rfl

theorem decodeFields_fuel_congr {α : Type} (step : α → Nat → Bytes → Option (α × Bytes))
    (hstep : ∀ a t bs a2 r2, step a t bs = some (a2, r2) → r2.length ≤ bs.length) :
    ∀ f1 f2 (acc : α) (bs : Bytes), bs.length < f1 → bs.length < f2 →
      decodeFields step f1 acc bs = decodeFields step f2 acc bs := by
  intro f1
  induction f1 with
  | zero => intro f2 acc bs h1 h2; omega
  | succ f ih =>
    intro f2 acc bs h1 h2
    cases f2 with
    | zero => omega
    | succ g =>
      cases bs with
      | nil => rfl
      | cons b tl =>
        simp only [decodeFields]
        cases hr : readVarint (b :: tl) with
        | none => simp [hr]
        | some p =>
          obtain ⟨t, rest⟩ := p
          simp only [hr]
          cases hs : step acc t rest with
          | none => simp [hs]
          | some q =>
            obtain ⟨a2, r2⟩ := q
            simp only [hs]
            have hlt := readVarint_length_lt hr
            have hle := hstep _ _ _ _ _ hs
            simp only [List.length_cons] at hlt h1 h2
            exact ih g a2 r2 (by omega) (by omega)

theorem decodeFields_eq_trace {α : Type} (step : α → Nat → Bytes → Option (α × Bytes)) :
    ∀ f (acc : α) (bs : Bytes),
      decodeFields step f acc bs = (decodeFieldsTrace step f acc bs).map Prod.fst := by
  intro f
  induction f with
  | zero => intro acc bs; rfl
  | succ f ih =>
    intro acc bs
    cases bs with
    | nil => rfl
    | cons b tl =>
      simp only [decodeFields, decodeFieldsTrace]
      cases hr : readVarint (b :: tl) with
      | none => simp [hr]
      | some p =>
        obtain ⟨t, rest⟩ := p
        simp only [hr]
        cases hs : step acc t rest with
        | none => simp [hs]
        | some q =>
          obtain ⟨a2, r2⟩ := q
          simp only [hs]
          cases ht : decodeFieldsTrace step f a2 r2 with
          | none => simp [ih, ht]
          | some u => simp [ih, ht]

/-! ## Message types of messages.rs

Embeddings of the structs, the enum and the `OneOfmsg` union of
`src/protocols/automerge/src/messages/messages.rs`, with their
`Default`, `MessageWrite` (`write`) and `MessageRead` (`fromBytes`)
implementations.  Rust strings and byte buffers are both `Bytes`. -/

structure DocumentSyncMessage where
  id : Bytes
  message : Bytes
  deriving DecidableEq, Repr

def DocumentSyncMessage.default : DocumentSyncMessage := ⟨[], []⟩

/-- The reason enum of mod_SyncErrorReason. -/
inductive Reason
  | UNKNOWN
  | INVALID_MESSAGE
  | DOCUMENT_NOT_FOUND
  | INTERNAL_ERROR
  deriving DecidableEq, Repr

/-- The discriminant value of a reason, as written by write_enum. -/
def Reason.toI32Nat : Reason → Nat
  | .UNKNOWN => 0
  | .INVALID_MESSAGE => 1
  | .DOCUMENT_NOT_FOUND => 2
  | .INTERNAL_ERROR => 3

/-- Reinterpretation of a decoded varint as an i32, as done by the
reader before the From i32 conversion (truncation to 32 bits, then
two's-complement sign). -/
def toI32 (v : Nat) : Int :=
  if v % 2 ^ 32 < 2 ^ 31 then (v % 2 ^ 32 : Nat) else (v % 2 ^ 32 : Nat) - 2 ^ 32

/-- The From i32 conversion of mod_SyncErrorReason (lines 142-152 of
messages.rs): 0-3 map to the four variants, anything else to the
default UNKNOWN. -/
def Reason.ofI32 (i : Int) : Reason :=
  if i = 0 then .UNKNOWN
  else if i = 1 then .INVALID_MESSAGE
  else if i = 2 then .DOCUMENT_NOT_FOUND
  else if i = 3 then .INTERNAL_ERROR
  else .UNKNOWN

structure SyncErrorReason where
  reason : Reason
  details : Bytes
  deriving DecidableEq, Repr

def SyncErrorReason.default : SyncErrorReason := ⟨.UNKNOWN, []⟩

structure DocumentSyncError where
  id : Bytes
  reason : Option SyncErrorReason
  deriving DecidableEq, Repr

def DocumentSyncError.default : DocumentSyncError := ⟨[], none⟩

structure AvailableDocuments where
  ids : List Bytes
  deriving DecidableEq, Repr

def AvailableDocuments.default : AvailableDocuments := ⟨[]⟩

structure RequestAvailableDocuments : Type where
  deriving DecidableEq, Repr

def RequestAvailableDocuments.default : RequestAvailableDocuments := ⟨⟩

structure RequestDocument where
  id : Bytes
  deriving DecidableEq, Repr

def RequestDocument.default : RequestDocument := ⟨[]⟩

structure Document where
  id : Bytes
  document : Bytes
  deriving DecidableEq, Repr

def Document.default : Document := ⟨[], []⟩

/-- The OneOfmsg union of mod_Message, including its distinguished
empty variant (Rust OneOfmsg::None, the Default). -/
inductive OneOfmsg
  | sync_message (m : DocumentSyncMessage)
  | sync_error (m : DocumentSyncError)
  | available_documents (m : AvailableDocuments)
  | request_available_documents (m : RequestAvailableDocuments)
  | request_document (m : RequestDocument)
  | document (m : Document)
  | None
  deriving DecidableEq, Repr

structure Message where
  msg : OneOfmsg
  deriving DecidableEq, Repr

def Message.default : Message := ⟨.None⟩

/-! ### Writers (MessageWrite impls): a field is omitted when its value
is the default (empty string, empty bytes, UNKNOWN enum, None). -/

def DocumentSyncMessage.write (m : DocumentSyncMessage) : Bytes :=
  (if m.id = [] then [] else writeVarint 10 ++ writeLenDelim m.id) ++
  (if m.message = [] then [] else writeVarint 18 ++ writeLenDelim m.message)

def SyncErrorReason.write (m : SyncErrorReason) : Bytes :=
  (if m.reason = .UNKNOWN then [] else writeVarint 8 ++ writeVarint m.reason.toI32Nat) ++
  (if m.details = [] then [] else writeVarint 18 ++ writeLenDelim m.details)

def DocumentSyncError.write (m : DocumentSyncError) : Bytes :=
  (if m.id = [] then [] else writeVarint 10 ++ writeLenDelim m.id) ++
  (match m.reason with
   | some s => writeVarint 18 ++ writeLenDelim s.write
   | none => [])

def AvailableDocuments.write (m : AvailableDocuments) : Bytes :=
  m.ids.foldr (fun s acc => writeVarint 10 ++ writeLenDelim s ++ acc) []

def RequestAvailableDocuments.write (_ : RequestAvailableDocuments) : Bytes := []

def RequestDocument.write (m : RequestDocument) : Bytes :=
  if m.id = [] then [] else writeVarint 10 ++ writeLenDelim m.id

def Document.write (m : Document) : Bytes :=
  (if m.id = [] then [] else writeVarint 10 ++ writeLenDelim m.id) ++
  (if m.document = [] then [] else writeVarint 18 ++ writeLenDelim m.document)

def Message.write (m : Message) : Bytes :=
  match m.msg with
  | .sync_message x => writeVarint 10 ++ writeLenDelim x.write
  | .sync_error x => writeVarint 18 ++ writeLenDelim x.write
  | .available_documents x => writeVarint 26 ++ writeLenDelim x.write
  | .request_available_documents x => writeVarint 34 ++ writeLenDelim x.write
  | .request_document x => writeVarint 42 ++ writeLenDelim x.write
  | .document x => writeVarint 50 ++ writeLenDelim x.write
  | .None => []

/-! ### Readers (MessageRead impls), one dispatch per message plugged
into the shared loop. -/

/-- Models r.read_message: a length-delimited chunk parsed by the
nested message's own reader. -/
def readMsgField {β : Type} (dec : Bytes → Option β) (bs : Bytes) : Option (β × Bytes) :=
  match readLenDelim bs with
  | none => none
  | some (chunk, rest) => (dec chunk).map (fun x => (x, rest))

def dsmStep (acc : DocumentSyncMessage) (t : Nat) (bs : Bytes) :
    Option (DocumentSyncMessage × Bytes) :=
  if t = 10 then (readLenDelim bs).map (fun p => ({ acc with id := p.1 }, p.2))
  else if t = 18 then (readLenDelim bs).map (fun p => ({ acc with message := p.1 }, p.2))
  else (readUnknown t bs).map (fun r => (acc, r))

def DocumentSyncMessage.fromBytes (bs : Bytes) : Option DocumentSyncMessage :=
  decodeFields dsmStep (bs.length + 1) DocumentSyncMessage.default bs

def serStep (acc : SyncErrorReason) (t : Nat) (bs : Bytes) :
    Option (SyncErrorReason × Bytes) :=
  if t = 8 then (readVarint bs).map (fun p => ({ acc with reason := Reason.ofI32 (toI32 p.1) }, p.2))
  else if t = 18 then (readLenDelim bs).map (fun p => ({ acc with details := p.1 }, p.2))
  else (readUnknown t bs).map (fun r => (acc, r))

def SyncErrorReason.fromBytes (bs : Bytes) : Option SyncErrorReason :=
  decodeFields serStep (bs.length + 1) SyncErrorReason.default bs

def dseStep (acc : DocumentSyncError) (t : Nat) (bs : Bytes) :
    Option (DocumentSyncError × Bytes) :=
  if t = 10 then (readLenDelim bs).map (fun p => ({ acc with id := p.1 }, p.2))
  else if t = 18 then
    (readMsgField SyncErrorReason.fromBytes bs).map (fun p => ({ acc with reason := some p.1 }, p.2))
  else (readUnknown t bs).map (fun r => (acc, r))

def DocumentSyncError.fromBytes (bs : Bytes) : Option DocumentSyncError :=
  decodeFields dseStep (bs.length + 1) DocumentSyncError.default bs

def adStep (acc : AvailableDocuments) (t : Nat) (bs : Bytes) :
    Option (AvailableDocuments × Bytes) :=
  if t = 10 then (readLenDelim bs).map (fun p => ({ ids := acc.ids ++ [p.1] }, p.2))
  else (readUnknown t bs).map (fun r => (acc, r))

def AvailableDocuments.fromBytes (bs : Bytes) : Option AvailableDocuments :=
  decodeFields adStep (bs.length + 1) AvailableDocuments.default bs

/-- RequestAvailableDocuments::from_reader consumes all input with
read_to_end and returns the default value. -/
def RequestAvailableDocuments.fromBytes (_ : Bytes) : Option RequestAvailableDocuments :=
  some RequestAvailableDocuments.default

def rdStep (acc : RequestDocument) (t : Nat) (bs : Bytes) :
    Option (RequestDocument × Bytes) :=
  if t = 10 then (readLenDelim bs).map (fun p => (RequestDocument.mk p.1, p.2))
  else (readUnknown t bs).map (fun r => (acc, r))

def RequestDocument.fromBytes (bs : Bytes) : Option RequestDocument :=
  decodeFields rdStep (bs.length + 1) RequestDocument.default bs

def docStep (acc : Document) (t : Nat) (bs : Bytes) : Option (Document × Bytes) :=
  if t = 10 then (readLenDelim bs).map (fun p => ({ acc with id := p.1 }, p.2))
  else if t = 18 then (readLenDelim bs).map (fun p => ({ acc with document := p.1 }, p.2))
  else (readUnknown t bs).map (fun r => (acc, r))

def Document.fromBytes (bs : Bytes) : Option Document :=
  decodeFields docStep (bs.length + 1) Document.default bs

def msgStep (acc : Message) (t : Nat) (bs : Bytes) : Option (Message × Bytes) :=
  if t = 10 then
    (readMsgField DocumentSyncMessage.fromBytes bs).map
      (fun p => (Message.mk (.sync_message p.1), p.2))
  else if t = 18 then
    (readMsgField DocumentSyncError.fromBytes bs).map
      (fun p => (Message.mk (.sync_error p.1), p.2))
  else if t = 26 then
    (readMsgField AvailableDocuments.fromBytes bs).map
      (fun p => (Message.mk (.available_documents p.1), p.2))
  else if t = 34 then
    (readMsgField RequestAvailableDocuments.fromBytes bs).map
      (fun p => (Message.mk (.request_available_documents p.1), p.2))
  else if t = 42 then
    (readMsgField RequestDocument.fromBytes bs).map
      (fun p => (Message.mk (.request_document p.1), p.2))
  else if t = 50 then
    (readMsgField Document.fromBytes bs).map
      (fun p => (Message.mk (.document p.1), p.2))
  else (readUnknown t bs).map (fun r => (acc, r))

def Message.fromBytes (bs : Bytes) : Option Message :=
  decodeFields msgStep (bs.length + 1) Message.default bs

/-- The envelope decoder together with the sequence of field tags it
read, in input order. -/
def Message.fromBytesTrace (bs : Bytes) : Option (Message × List Nat) :=
  decodeFieldsTrace msgStep (bs.length + 1) Message.default bs

/-! ## Codec lemmas -/

theorem writeVarint_length_pos (n : Nat) : 0 < (writeVarint n).length := by
  cases hw : writeVarint n with
  | nil => exact absurd hw (writeVarint_ne_nil n)
  | cons b tl => simp

/-- Normal form used for all dec(oder) runs: the fuel the wrappers
supply. -/
def runDec {α : Type} (step : α → Nat → Bytes → Option (α × Bytes)) (acc : α) (bs : Bytes) :
    Option α :=
  decodeFields step (bs.length + 1) acc bs

theorem runDec_nil {α : Type} (step : α → Nat → Bytes → Option (α × Bytes)) (acc : α) :
    runDec step acc [] = some acc := rfl

/-- One field is consumed by one loop iteration: reading the tag and
letting the dispatch consume the field body takes the run from the
whole input to the remaining suffix. -/
theorem runDec_tag {α : Type} (step : α → Nat → Bytes → Option (α × Bytes))
    (hstep : ∀ a t bs a2 r2, step a t bs = some (a2, r2) → r2.length ≤ bs.length)
    (acc acc2 : α) (t : Nat) (body rest : Bytes)
    (hs : step acc t (body ++ rest) = some (acc2, rest)) :
    runDec step acc (writeVarint t ++ (body ++ rest)) = runDec step acc2 rest := by
  unfold runDec
  rw [decodeFields_tag]
  simp only [hs]
  apply decodeFields_fuel_congr step hstep
  · have h1 := writeVarint_length_pos t
    simp only [List.length_append]
    omega
  · omega

theorem map_preserve_snd_le {α β : Type} {F : Option (β × Bytes)} {bs : Bytes}
    (hF : ∀ x r, F = some (x, r) → r.length ≤ bs.length)
    {f : β × Bytes → α × Bytes} {a2 : α} {r2 : Bytes}
    (h : F.map f = some (a2, r2)) (hf : ∀ p, (f p).2 = p.2) : r2.length ≤ bs.length := by
  cases hfo : F with
  | none => rw [hfo] at h; cases h
  | some p =>
    rw [hfo] at h
    simp only [Option.map_some', Option.some.injEq] at h
    have h2 : (f p).2 = r2 := by rw [h]
    rw [← h2, hf p]
    exact hF p.1 p.2 (by rw [hfo])

theorem unknown_map_le {α : Type} {a : α} {t : Nat} {bs : Bytes} {a2 : α} {r2 : Bytes}
    (h : (readUnknown t bs).map (fun r => (a, r)) = some (a2, r2)) :
    r2.length ≤ bs.length := by
  cases hu : readUnknown t bs with
  | none => rw [hu] at h; cases h
  | some r =>
    rw [hu] at h
    simp only [Option.map_some', Option.some.injEq, Prod.mk.injEq] at h
    obtain ⟨h1, h2⟩ := h
    rw [← h2]
    exact readUnknown_length_le hu

theorem readMsgField_le {β : Type} (dec : Bytes → Option β) (bs : Bytes) :
    ∀ (x : β) (r : Bytes), readMsgField dec bs = some (x, r) → r.length ≤ bs.length := by
  intro x r h
  cases hl : readLenDelim bs with
  | none => simp [readMsgField, hl] at h
  | some p =>
    obtain ⟨chunk, rest⟩ := p
    simp only [readMsgField, hl] at h
    cases hd : dec chunk with
    | none => rw [hd] at h; cases h
    | some v =>
      rw [hd] at h
      simp only [Option.map_some', Option.some.injEq, Prod.mk.injEq] at h
      obtain ⟨h1, h2⟩ := h
      rw [← h2]
      exact (readLenDelim_length_lt hl).le

theorem lenDelim_le (bs : Bytes) :
    ∀ (x : Bytes) (r : Bytes), readLenDelim bs = some (x, r) → r.length ≤ bs.length :=
  fun _ _ hf => (readLenDelim_length_lt hf).le

theorem varint_le (bs : Bytes) :
    ∀ (x : Nat) (r : Bytes), readVarint bs = some (x, r) → r.length ≤ bs.length :=
  fun _ _ hf => (readVarint_length_lt hf).le

theorem dsmStep_le : ∀ a t bs a2 r2, dsmStep a t bs = some (a2, r2) → r2.length ≤ bs.length := by
  intro a t bs a2 r2 h
  unfold dsmStep at h
  split_ifs at h
  · exact map_preserve_snd_le (lenDelim_le bs) h (fun p => rfl)
  · exact map_preserve_snd_le (lenDelim_le bs) h (fun p => rfl)
  · exact unknown_map_le h

theorem serStep_le : ∀ a t bs a2 r2, serStep a t bs = some (a2, r2) → r2.length ≤ bs.length := by
  intro a t bs a2 r2 h
  unfold serStep at h
  split_ifs at h
  · exact map_preserve_snd_le (varint_le bs) h (fun p => rfl)
  · exact map_preserve_snd_le (lenDelim_le bs) h (fun p => rfl)
  · exact unknown_map_le h

theorem dseStep_le : ∀ a t bs a2 r2, dseStep a t bs = some (a2, r2) → r2.length ≤ bs.length := by
  intro a t bs a2 r2 h
  unfold dseStep at h
  split_ifs at h
  · exact map_preserve_snd_le (lenDelim_le bs) h (fun p => rfl)
  · exact map_preserve_snd_le (readMsgField_le SyncErrorReason.fromBytes bs) h (fun p => rfl)
  · exact unknown_map_le h

theorem adStep_le : ∀ a t bs a2 r2, adStep a t bs = some (a2, r2) → r2.length ≤ bs.length := by
  intro a t bs a2 r2 h
  unfold adStep at h
  split_ifs at h
  · exact map_preserve_snd_le (lenDelim_le bs) h (fun p => rfl)
  · exact unknown_map_le h

theorem rdStep_le : ∀ a t bs a2 r2, rdStep a t bs = some (a2, r2) → r2.length ≤ bs.length := by
  intro a t bs a2 r2 h
  unfold rdStep at h
  split_ifs at h
  · exact map_preserve_snd_le (lenDelim_le bs) h (fun p => rfl)
  · exact unknown_map_le h

theorem docStep_le : ∀ a t bs a2 r2, docStep a t bs = some (a2, r2) → r2.length ≤ bs.length := by
  intro a t bs a2 r2 h
  unfold docStep at h
  split_ifs at h
  · exact map_preserve_snd_le (lenDelim_le bs) h (fun p => rfl)
  · exact map_preserve_snd_le (lenDelim_le bs) h (fun p => rfl)
  · exact unknown_map_le h

theorem msgStep_le : ∀ a t bs a2 r2, msgStep a t bs = some (a2, r2) → r2.length ≤ bs.length := by
  intro a t bs a2 r2 h
  unfold msgStep at h
  split_ifs at h
  · exact map_preserve_snd_le (readMsgField_le DocumentSyncMessage.fromBytes bs) h (fun p => rfl)
  · exact map_preserve_snd_le (readMsgField_le DocumentSyncError.fromBytes bs) h (fun p => rfl)
  · exact map_preserve_snd_le (readMsgField_le AvailableDocuments.fromBytes bs) h (fun p => rfl)
  · exact map_preserve_snd_le (readMsgField_le RequestAvailableDocuments.fromBytes bs) h (fun p => rfl)
  · exact map_preserve_snd_le (readMsgField_le RequestDocument.fromBytes bs) h (fun p => rfl)
  · exact map_preserve_snd_le (readMsgField_le Document.fromBytes bs) h (fun p => rfl)
  · exact unknown_map_le h

/-! ## Field-level evaluation lemmas -/

theorem append_nil_eq (xs : Bytes) : xs = xs ++ [] := (List.append_nil xs).symm

theorem dsmStep_10 (acc : DocumentSyncMessage) (s rest : Bytes) :
    dsmStep acc 10 (writeLenDelim s ++ rest) = some ({ acc with id := s }, rest) := by
  simp [dsmStep, readLenDelim_write]

theorem dsmStep_18 (acc : DocumentSyncMessage) (s rest : Bytes) :
    dsmStep acc 18 (writeLenDelim s ++ rest) = some ({ acc with message := s }, rest) := by
  simp [dsmStep, readLenDelim_write]

theorem dsm_field10 (acc : DocumentSyncMessage) (s rest : Bytes) :
    runDec dsmStep acc (writeVarint 10 ++ (writeLenDelim s ++ rest)) =
      runDec dsmStep { acc with id := s } rest :=
  runDec_tag dsmStep dsmStep_le acc _ 10 (writeLenDelim s) rest (dsmStep_10 acc s rest)

theorem dsm_field18 (acc : DocumentSyncMessage) (s rest : Bytes) :
    runDec dsmStep acc (writeVarint 18 ++ (writeLenDelim s ++ rest)) =
      runDec dsmStep { acc with message := s } rest :=
  runDec_tag dsmStep dsmStep_le acc _ 18 (writeLenDelim s) rest (dsmStep_18 acc s rest)

theorem serStep_8 (acc : SyncErrorReason) (v : Nat) (rest : Bytes) :
    serStep acc 8 (writeVarint v ++ rest) =
      some ({ acc with reason := Reason.ofI32 (toI32 v) }, rest) := by
  simp [serStep, readVarint_writeVarint]

theorem serStep_18 (acc : SyncErrorReason) (s rest : Bytes) :
    serStep acc 18 (writeLenDelim s ++ rest) = some ({ acc with details := s }, rest) := by
  simp [serStep, readLenDelim_write]

theorem ser_field8 (acc : SyncErrorReason) (v : Nat) (rest : Bytes) :
    runDec serStep acc (writeVarint 8 ++ (writeVarint v ++ rest)) =
      runDec serStep { acc with reason := Reason.ofI32 (toI32 v) } rest :=
  runDec_tag serStep serStep_le acc _ 8 (writeVarint v) rest (serStep_8 acc v rest)

theorem ser_field18 (acc : SyncErrorReason) (s rest : Bytes) :
    runDec serStep acc (writeVarint 18 ++ (writeLenDelim s ++ rest)) =
      runDec serStep { acc with details := s } rest :=
  runDec_tag serStep serStep_le acc _ 18 (writeLenDelim s) rest (serStep_18 acc s rest)

theorem dseStep_10 (acc : DocumentSyncError) (s rest : Bytes) :
    dseStep acc 10 (writeLenDelim s ++ rest) = some ({ acc with id := s }, rest) := by
  simp [dseStep, readLenDelim_write]

theorem dseStep_18 (acc : DocumentSyncError) (chunk rest : Bytes) (s : SyncErrorReason)
    (hs : SyncErrorReason.fromBytes chunk = some s) :
    dseStep acc 18 (writeLenDelim chunk ++ rest) = some ({ acc with reason := some s }, rest) := by
  simp [dseStep, readMsgField, readLenDelim_write, hs]

theorem dse_field10 (acc : DocumentSyncError) (s rest : Bytes) :
    runDec dseStep acc (writeVarint 10 ++ (writeLenDelim s ++ rest)) =
      runDec dseStep { acc with id := s } rest :=
  runDec_tag dseStep dseStep_le acc _ 10 (writeLenDelim s) rest (dseStep_10 acc s rest)

theorem dse_field18 (acc : DocumentSyncError) (chunk rest : Bytes) (s : SyncErrorReason)
    (hs : SyncErrorReason.fromBytes chunk = some s) :
    runDec dseStep acc (writeVarint 18 ++ (writeLenDelim chunk ++ rest)) =
      runDec dseStep { acc with reason := some s } rest :=
  runDec_tag dseStep dseStep_le acc _ 18 (writeLenDelim chunk) rest (dseStep_18 acc chunk rest s hs)

theorem adStep_10 (acc : AvailableDocuments) (s rest : Bytes) :
    adStep acc 10 (writeLenDelim s ++ rest) = some (⟨acc.ids ++ [s]⟩, rest) := by
  simp [adStep, readLenDelim_write]

theorem ad_field10 (acc : AvailableDocuments) (s rest : Bytes) :
    runDec adStep acc (writeVarint 10 ++ (writeLenDelim s ++ rest)) =
      runDec adStep ⟨acc.ids ++ [s]⟩ rest :=
  runDec_tag adStep adStep_le acc _ 10 (writeLenDelim s) rest (adStep_10 acc s rest)

theorem rdStep_10 (acc : RequestDocument) (s rest : Bytes) :
    rdStep acc 10 (writeLenDelim s ++ rest) = some (⟨s⟩, rest) := by
  simp [rdStep, readLenDelim_write]

theorem rd_field10 (acc : RequestDocument) (s rest : Bytes) :
    runDec rdStep acc (writeVarint 10 ++ (writeLenDelim s ++ rest)) =
      runDec rdStep ⟨s⟩ rest :=
  runDec_tag rdStep rdStep_le acc _ 10 (writeLenDelim s) rest (rdStep_10 acc s rest)

theorem docStep_10 (acc : Document) (s rest : Bytes) :
    docStep acc 10 (writeLenDelim s ++ rest) = some ({ acc with id := s }, rest) := by
  simp [docStep, readLenDelim_write]

theorem docStep_18 (acc : Document) (s rest : Bytes) :
    docStep acc 18 (writeLenDelim s ++ rest) = some ({ acc with document := s }, rest) := by
  simp [docStep, readLenDelim_write]

theorem doc_field10 (acc : Document) (s rest : Bytes) :
    runDec docStep acc (writeVarint 10 ++ (writeLenDelim s ++ rest)) =
      runDec docStep { acc with id := s } rest :=
  runDec_tag docStep docStep_le acc _ 10 (writeLenDelim s) rest (docStep_10 acc s rest)

theorem doc_field18 (acc : Document) (s rest : Bytes) :
    runDec docStep acc (writeVarint 18 ++ (writeLenDelim s ++ rest)) =
      runDec docStep { acc with document := s } rest :=
  runDec_tag docStep docStep_le acc _ 18 (writeLenDelim s) rest (docStep_18 acc s rest)

/-! ## Round trips -/

theorem dsm_fromBytes_runDec (bs : Bytes) :
    DocumentSyncMessage.fromBytes bs = runDec dsmStep DocumentSyncMessage.default bs := rfl

theorem ser_fromBytes_runDec (bs : Bytes) :
    SyncErrorReason.fromBytes bs = runDec serStep SyncErrorReason.default bs := rfl

theorem dse_fromBytes_runDec (bs : Bytes) :
    DocumentSyncError.fromBytes bs = runDec dseStep DocumentSyncError.default bs := rfl

theorem ad_fromBytes_runDec (bs : Bytes) :
    AvailableDocuments.fromBytes bs = runDec adStep AvailableDocuments.default bs := rfl

theorem rd_fromBytes_runDec (bs : Bytes) :
    RequestDocument.fromBytes bs = runDec rdStep RequestDocument.default bs := rfl

theorem doc_fromBytes_runDec (bs : Bytes) :
    Document.fromBytes bs = runDec docStep Document.default bs := rfl

theorem msg_fromBytes_runDec (bs : Bytes) :
    Message.fromBytes bs = runDec msgStep Message.default bs := rfl

theorem dsm_roundTrip (m : DocumentSyncMessage) :
    DocumentSyncMessage.fromBytes m.write = some m := by
  obtain ⟨i, s⟩ := m
  rw [dsm_fromBytes_runDec]
  show runDec dsmStep DocumentSyncMessage.default
      ((if i = [] then [] else writeVarint 10 ++ writeLenDelim i) ++
       (if s = [] then [] else writeVarint 18 ++ writeLenDelim s)) = _
  by_cases h1 : i = []
  · subst h1
    by_cases h2 : s = []
    · subst h2; rfl
    · rw [if_pos rfl, if_neg h2, List.nil_append, append_nil_eq (writeLenDelim s),
        dsm_field18, runDec_nil]
      rfl
  · by_cases h2 : s = []
    · subst h2
      rw [if_neg h1, if_pos rfl, List.append_nil, append_nil_eq (writeLenDelim i),
        dsm_field10, runDec_nil]
      rfl
    · rw [if_neg h1, if_neg h2, List.append_assoc, dsm_field10,
        append_nil_eq (writeLenDelim s), dsm_field18, runDec_nil]

theorem Reason.ofI32_toI32Nat (r : Reason) : Reason.ofI32 (toI32 r.toI32Nat) = r := by
  cases r <;> decide

theorem ser_roundTrip (m : SyncErrorReason) :
    SyncErrorReason.fromBytes m.write = some m := by
  obtain ⟨r, d⟩ := m
  rw [ser_fromBytes_runDec]
  show runDec serStep SyncErrorReason.default
      ((if r = Reason.UNKNOWN then [] else writeVarint 8 ++ writeVarint r.toI32Nat) ++
       (if d = [] then [] else writeVarint 18 ++ writeLenDelim d)) = _
  by_cases h1 : r = Reason.UNKNOWN
  · subst h1
    by_cases h2 : d = []
    · subst h2; rfl
    · rw [if_pos rfl, if_neg h2, List.nil_append, append_nil_eq (writeLenDelim d),
        ser_field18, runDec_nil]
      rfl
  · by_cases h2 : d = []
    · subst h2
      rw [if_neg h1, if_pos rfl, List.append_nil, append_nil_eq (writeVarint r.toI32Nat),
        ser_field8, runDec_nil, Reason.ofI32_toI32Nat]
      rfl
    · rw [if_neg h1, if_neg h2, List.append_assoc, ser_field8,
        append_nil_eq (writeLenDelim d), ser_field18, runDec_nil, Reason.ofI32_toI32Nat]

theorem dse_roundTrip (m : DocumentSyncError) :
    DocumentSyncError.fromBytes m.write = some m := by
  obtain ⟨i, ro⟩ := m
  rw [dse_fromBytes_runDec]
  cases ro with
  | none =>
    show runDec dseStep DocumentSyncError.default
        ((if i = [] then [] else writeVarint 10 ++ writeLenDelim i) ++ []) = _
    by_cases h1 : i = []
    · subst h1; rfl
    · rw [if_neg h1, List.append_nil, append_nil_eq (writeLenDelim i), dse_field10, runDec_nil]
      rfl
  | some s =>
    show runDec dseStep DocumentSyncError.default
        ((if i = [] then [] else writeVarint 10 ++ writeLenDelim i) ++
         (writeVarint 18 ++ writeLenDelim s.write)) = _
    by_cases h1 : i = []
    · subst h1
      rw [if_pos rfl, List.nil_append, append_nil_eq (writeLenDelim s.write),
        dse_field18 _ _ _ s (ser_roundTrip s), runDec_nil]
      rfl
    · rw [if_neg h1, List.append_assoc, dse_field10,
        append_nil_eq (writeLenDelim s.write),
        dse_field18 _ _ _ s (ser_roundTrip s), runDec_nil]

theorem ad_fields (ids : List Bytes) (acc : AvailableDocuments) (rest : Bytes) :
    runDec adStep acc (ids.foldr (fun s a => writeVarint 10 ++ writeLenDelim s ++ a) [] ++ rest) =
      runDec adStep ⟨acc.ids ++ ids⟩ rest := by
  induction ids generalizing acc with
  | nil =>
    obtain ⟨l⟩ := acc
    simp only [List.foldr_nil, List.nil_append, List.append_nil]
  | cons s tl ih =>
    rw [List.foldr_cons, List.append_assoc, List.append_assoc, ad_field10, ih]
    simp [List.append_assoc]

theorem ad_roundTrip (m : AvailableDocuments) :
    AvailableDocuments.fromBytes m.write = some m := by
  obtain ⟨ids⟩ := m
  rw [ad_fromBytes_runDec]
  show runDec adStep AvailableDocuments.default
      (ids.foldr (fun s a => writeVarint 10 ++ writeLenDelim s ++ a) []) = _
  rw [append_nil_eq (ids.foldr (fun s a => writeVarint 10 ++ writeLenDelim s ++ a) []),
    ad_fields, runDec_nil]
  simp [AvailableDocuments.default]

theorem rad_roundTrip (m : RequestAvailableDocuments) :
    RequestAvailableDocuments.fromBytes m.write = some m := rfl

theorem rd_roundTrip (m : RequestDocument) :
    RequestDocument.fromBytes m.write = some m := by
  obtain ⟨i⟩ := m
  rw [rd_fromBytes_runDec]
  show runDec rdStep RequestDocument.default
      (if i = [] then [] else writeVarint 10 ++ writeLenDelim i) = _
  by_cases h1 : i = []
  · subst h1; rfl
  · rw [if_neg h1, append_nil_eq (writeLenDelim i), rd_field10, runDec_nil]

theorem doc_roundTrip (m : Document) :
    Document.fromBytes m.write = some m := by
  obtain ⟨i, s⟩ := m
  rw [doc_fromBytes_runDec]
  show runDec docStep Document.default
      ((if i = [] then [] else writeVarint 10 ++ writeLenDelim i) ++
       (if s = [] then [] else writeVarint 18 ++ writeLenDelim s)) = _
  by_cases h1 : i = []
  · subst h1
    by_cases h2 : s = []
    · subst h2; rfl
    · rw [if_pos rfl, if_neg h2, List.nil_append, append_nil_eq (writeLenDelim s),
        doc_field18, runDec_nil]
      rfl
  · by_cases h2 : s = []
    · subst h2
      rw [if_neg h1, if_pos rfl, List.append_nil, append_nil_eq (writeLenDelim i),
        doc_field10, runDec_nil]
      rfl
    · rw [if_neg h1, if_neg h2, List.append_assoc, doc_field10,
        append_nil_eq (writeLenDelim s), doc_field18, runDec_nil]

/-! ## Envelope field lemmas and round trip -/

theorem msgStep_10 (acc : Message) (chunk rest : Bytes) (x : DocumentSyncMessage)
    (hx : DocumentSyncMessage.fromBytes chunk = some x) :
    msgStep acc 10 (writeLenDelim chunk ++ rest) = some (⟨.sync_message x⟩, rest) := by
  simp [msgStep, readMsgField, readLenDelim_write, hx]

theorem msgStep_18 (acc : Message) (chunk rest : Bytes) (x : DocumentSyncError)
    (hx : DocumentSyncError.fromBytes chunk = some x) :
    msgStep acc 18 (writeLenDelim chunk ++ rest) = some (⟨.sync_error x⟩, rest) := by
  simp [msgStep, readMsgField, readLenDelim_write, hx]

theorem msgStep_26 (acc : Message) (chunk rest : Bytes) (x : AvailableDocuments)
    (hx : AvailableDocuments.fromBytes chunk = some x) :
    msgStep acc 26 (writeLenDelim chunk ++ rest) = some (⟨.available_documents x⟩, rest) := by
  simp [msgStep, readMsgField, readLenDelim_write, hx]

theorem msgStep_34 (acc : Message) (chunk rest : Bytes) :
    msgStep acc 34 (writeLenDelim chunk ++ rest) =
      some (⟨.request_available_documents RequestAvailableDocuments.default⟩, rest) := by
  simp [msgStep, readMsgField, readLenDelim_write, RequestAvailableDocuments.fromBytes]

theorem msgStep_42 (acc : Message) (chunk rest : Bytes) (x : RequestDocument)
    (hx : RequestDocument.fromBytes chunk = some x) :
    msgStep acc 42 (writeLenDelim chunk ++ rest) = some (⟨.request_document x⟩, rest) := by
  simp [msgStep, readMsgField, readLenDelim_write, hx]

theorem msgStep_50 (acc : Message) (chunk rest : Bytes) (x : Document)
    (hx : Document.fromBytes chunk = some x) :
    msgStep acc 50 (writeLenDelim chunk ++ rest) = some (⟨.document x⟩, rest) := by
  simp [msgStep, readMsgField, readLenDelim_write, hx]

theorem msg_field10 (acc : Message) (chunk rest : Bytes) (x : DocumentSyncMessage)
    (hx : DocumentSyncMessage.fromBytes chunk = some x) :
    runDec msgStep acc (writeVarint 10 ++ (writeLenDelim chunk ++ rest)) =
      runDec msgStep ⟨.sync_message x⟩ rest :=
  runDec_tag msgStep msgStep_le acc _ 10 (writeLenDelim chunk) rest (msgStep_10 acc chunk rest x hx)

theorem msg_field18 (acc : Message) (chunk rest : Bytes) (x : DocumentSyncError)
    (hx : DocumentSyncError.fromBytes chunk = some x) :
    runDec msgStep acc (writeVarint 18 ++ (writeLenDelim chunk ++ rest)) =
      runDec msgStep ⟨.sync_error x⟩ rest :=
  runDec_tag msgStep msgStep_le acc _ 18 (writeLenDelim chunk) rest (msgStep_18 acc chunk rest x hx)

theorem msg_field26 (acc : Message) (chunk rest : Bytes) (x : AvailableDocuments)
    (hx : AvailableDocuments.fromBytes chunk = some x) :
    runDec msgStep acc (writeVarint 26 ++ (writeLenDelim chunk ++ rest)) =
      runDec msgStep ⟨.available_documents x⟩ rest :=
  runDec_tag msgStep msgStep_le acc _ 26 (writeLenDelim chunk) rest (msgStep_26 acc chunk rest x hx)

theorem msg_field34 (acc : Message) (chunk rest : Bytes) :
    runDec msgStep acc (writeVarint 34 ++ (writeLenDelim chunk ++ rest)) =
      runDec msgStep ⟨.request_available_documents RequestAvailableDocuments.default⟩ rest :=
  runDec_tag msgStep msgStep_le acc _ 34 (writeLenDelim chunk) rest (msgStep_34 acc chunk rest)

theorem msg_field42 (acc : Message) (chunk rest : Bytes) (x : RequestDocument)
    (hx : RequestDocument.fromBytes chunk = some x) :
    runDec msgStep acc (writeVarint 42 ++ (writeLenDelim chunk ++ rest)) =
      runDec msgStep ⟨.request_document x⟩ rest :=
  runDec_tag msgStep msgStep_le acc _ 42 (writeLenDelim chunk) rest (msgStep_42 acc chunk rest x hx)

theorem msg_field50 (acc : Message) (chunk rest : Bytes) (x : Document)
    (hx : Document.fromBytes chunk = some x) :
    runDec msgStep acc (writeVarint 50 ++ (writeLenDelim chunk ++ rest)) =
      runDec msgStep ⟨.document x⟩ rest :=
  runDec_tag msgStep msgStep_le acc _ 50 (writeLenDelim chunk) rest (msgStep_50 acc chunk rest x hx)

theorem msg_roundTrip (m : Message) : Message.fromBytes m.write = some m := by
  obtain ⟨v⟩ := m
  rw [msg_fromBytes_runDec]
  cases v with
  | sync_message x =>
    show runDec msgStep Message.default (writeVarint 10 ++ writeLenDelim x.write) = _
    rw [append_nil_eq (writeLenDelim x.write),
      msg_field10 _ _ _ x (dsm_roundTrip x), runDec_nil]
  | sync_error x =>
    show runDec msgStep Message.default (writeVarint 18 ++ writeLenDelim x.write) = _
    rw [append_nil_eq (writeLenDelim x.write),
      msg_field18 _ _ _ x (dse_roundTrip x), runDec_nil]
  | available_documents x =>
    show runDec msgStep Message.default (writeVarint 26 ++ writeLenDelim x.write) = _
    rw [append_nil_eq (writeLenDelim x.write),
      msg_field26 _ _ _ x (ad_roundTrip x), runDec_nil]
  | request_available_documents x =>
    show runDec msgStep Message.default (writeVarint 34 ++ writeLenDelim x.write) = _
    rw [append_nil_eq (writeLenDelim x.write), msg_field34, runDec_nil]
  | request_document x =>
    show runDec msgStep Message.default (writeVarint 42 ++ writeLenDelim x.write) = _
    rw [append_nil_eq (writeLenDelim x.write),
      msg_field42 _ _ _ x (rd_roundTrip x), runDec_nil]
  | document x =>
    show runDec msgStep Message.default (writeVarint 50 ++ writeLenDelim x.write) = _
    rw [append_nil_eq (writeLenDelim x.write),
      msg_field50 _ _ _ x (doc_roundTrip x), runDec_nil]
  | None => rfl

/-- C1: wire codec round-trip law.  For every constructible Message
envelope value (any of the six variants or the empty variant, all-empty
field values included), decoding the bytes produced by encoding the
value yields exactly that value. -/
theorem c1_wire_round_trip (m : Message) : Message.fromBytes (Message.write m) = some m :=
  msg_roundTrip m

/-! ## Unknown fields and forward compatibility -/

/-- The six variant tags of the Message envelope's oneof, in definition
order (field numbers 1-6, each with wire type 2). -/
def variantTags : List Nat := [10, 18, 26, 34, 42, 50]

/-- A well-formed body for a field of an unrecognized tag, one
constructor per skippable wire type. -/
inductive UnknownBody
  | uvarint (n : Nat)
  | ufixed64 (b : Bytes)
  | ulenDelim (p : Bytes)
  | ufixed32 (b : Bytes)

def UnknownBody.wireType : UnknownBody → Nat
  | .uvarint _ => 0
  | .ufixed64 _ => 1
  | .ulenDelim _ => 2
  | .ufixed32 _ => 5

def UnknownBody.wf : UnknownBody → Prop
  | .ufixed64 b => b.length = 8
  | .ufixed32 b => b.length = 4
  | _ => True

def UnknownBody.encode : UnknownBody → Bytes
  | .uvarint n => writeVarint n
  | .ufixed64 b => b
  | .ulenDelim p => writeLenDelim p
  | .ufixed32 b => b

theorem readUnknown_encode (t : Nat) (u : UnknownBody) (rest : Bytes)
    (hwt : t % 8 = u.wireType) (hwf : u.wf) :
    readUnknown t (u.encode ++ rest) = some rest := by
  cases u with
  | uvarint n =>
    simp only [UnknownBody.wireType] at hwt
    simp [readUnknown, hwt, UnknownBody.encode, readVarint_writeVarint]
  | ufixed64 b =>
    simp only [UnknownBody.wireType] at hwt
    simp only [UnknownBody.wf] at hwf
    simp only [readUnknown, hwt, UnknownBody.encode]
    rw [if_pos (by simp [hwf])]
    rw [← hwf, drop_append_len]
  | ulenDelim p =>
    simp only [UnknownBody.wireType] at hwt
    simp [readUnknown, hwt, UnknownBody.encode, readLenDelim_write]
  | ufixed32 b =>
    simp only [UnknownBody.wireType] at hwt
    simp only [UnknownBody.wf] at hwf
    simp only [readUnknown, hwt, UnknownBody.encode]
    rw [if_pos (by simp [hwf])]
    rw [← hwf, drop_append_len]

theorem msgStep_unknown (acc : Message) (t : Nat) (bs : Bytes) (ht : t ∉ variantTags) :
    msgStep acc t bs = (readUnknown t bs).map (fun r => (acc, r)) := by
  simp only [variantTags, List.mem_cons, List.not_mem_nil, or_false, not_or] at ht
  obtain ⟨h10, h18, h26, h34, h42, h50⟩ := ht
  simp [msgStep, h10, h18, h26, h34, h42, h50]

theorem msg_unknown_field (acc : Message) (t : Nat) (u : UnknownBody) (rest : Bytes)
    (ht : t ∉ variantTags) (hwt : t % 8 = u.wireType) (hwf : u.wf) :
    runDec msgStep acc (writeVarint t ++ (u.encode ++ rest)) = runDec msgStep acc rest :=
  runDec_tag msgStep msgStep_le acc acc t u.encode rest
    (by rw [msgStep_unknown acc t _ ht, readUnknown_encode t u rest hwt hwf]; rfl)

/-- C7: forward compatibility of decoding.  A byte stream consisting of
one recognized, well-formed envelope field followed by one additional
well-formed field with an unrecognized tag decodes successfully and
yields the same message as decoding the recognized field alone: the
unknown tag is skipped without error. -/
theorem c7_unknown_tag_skipped (m : Message) (t : Nat) (u : UnknownBody)
    (hm : m.msg ≠ OneOfmsg.None) (ht : t ∉ variantTags)
    (hwt : t % 8 = u.wireType) (hwf : u.wf) :
    Message.fromBytes (Message.write m ++ (writeVarint t ++ u.encode)) =
      Message.fromBytes (Message.write m) ∧
    Message.fromBytes (Message.write m) = some m := by
  refine ⟨?_, msg_roundTrip m⟩
  obtain ⟨v⟩ := m
  rw [msg_roundTrip ⟨v⟩]
  cases v with
  | None => exact absurd rfl hm
  | sync_message x =>
    rw [msg_fromBytes_runDec]
    show runDec msgStep Message.default
        ((writeVarint 10 ++ writeLenDelim x.write) ++ (writeVarint t ++ u.encode)) = _
    rw [List.append_assoc, msg_field10 _ _ _ x (dsm_roundTrip x),
      append_nil_eq u.encode, msg_unknown_field _ t u [] ht hwt hwf, runDec_nil]
  | sync_error x =>
    rw [msg_fromBytes_runDec]
    show runDec msgStep Message.default
        ((writeVarint 18 ++ writeLenDelim x.write) ++ (writeVarint t ++ u.encode)) = _
    rw [List.append_assoc, msg_field18 _ _ _ x (dse_roundTrip x),
      append_nil_eq u.encode, msg_unknown_field _ t u [] ht hwt hwf, runDec_nil]
  | available_documents x =>
    rw [msg_fromBytes_runDec]
    show runDec msgStep Message.default
        ((writeVarint 26 ++ writeLenDelim x.write) ++ (writeVarint t ++ u.encode)) = _
    rw [List.append_assoc, msg_field26 _ _ _ x (ad_roundTrip x),
      append_nil_eq u.encode, msg_unknown_field _ t u [] ht hwt hwf, runDec_nil]
  | request_available_documents x =>
    rw [msg_fromBytes_runDec]
    show runDec msgStep Message.default
        ((writeVarint 34 ++ writeLenDelim x.write) ++ (writeVarint t ++ u.encode)) = _
    rw [List.append_assoc, msg_field34,
      append_nil_eq u.encode, msg_unknown_field _ t u [] ht hwt hwf, runDec_nil]
  | request_document x =>
    rw [msg_fromBytes_runDec]
    show runDec msgStep Message.default
        ((writeVarint 42 ++ writeLenDelim x.write) ++ (writeVarint t ++ u.encode)) = _
    rw [List.append_assoc, msg_field42 _ _ _ x (rd_roundTrip x),
      append_nil_eq u.encode, msg_unknown_field _ t u [] ht hwt hwf, runDec_nil]
  | document x =>
    rw [msg_fromBytes_runDec]
    show runDec msgStep Message.default
        ((writeVarint 50 ++ writeLenDelim x.write) ++ (writeVarint t ++ u.encode)) = _
    rw [List.append_assoc, msg_field50 _ _ _ x (doc_roundTrip x),
      append_nil_eq u.encode, msg_unknown_field _ t u [] ht hwt hwf, runDec_nil]

/-- Witness for C7 at a concrete input: a request_document field plus
an unknown field with tag 58 (field 7, wire type 2). -/
theorem c7_unknown_tag_skipped_witness :
    Message.fromBytes (Message.write ⟨.request_document ⟨[97]⟩⟩ ++
        (writeVarint 58 ++ UnknownBody.encode (.ulenDelim [1, 2, 3]))) =
      Message.fromBytes (Message.write ⟨.request_document ⟨[97]⟩⟩) ∧
    Message.fromBytes (Message.write ⟨.request_document ⟨[97]⟩⟩) =
      some ⟨.request_document ⟨[97]⟩⟩ :=
  c7_unknown_tag_skipped ⟨.request_document ⟨[97]⟩⟩ 58 (.ulenDelim [1, 2, 3])
    (by decide) (by decide) rfl trivial

/-- C10: an unrecognized reason-enum value decodes to UNKNOWN.  For a
SyncErrorReason message whose reason field (tag 8) carries a varint
whose i32 value is none of 0, 1, 2, 3, decoding succeeds and yields
reason UNKNOWN with empty details, rather than a decode error. -/
theorem c10_unknown_reason_decodes_to_UNKNOWN (v : Nat)
    (h0 : toI32 v ≠ 0) (h1 : toI32 v ≠ 1) (h2 : toI32 v ≠ 2) (h3 : toI32 v ≠ 3) :
    SyncErrorReason.fromBytes (writeVarint 8 ++ writeVarint v) =
      some ⟨Reason.UNKNOWN, []⟩ := by
  rw [ser_fromBytes_runDec, append_nil_eq (writeVarint v), ser_field8, runDec_nil]
  simp only [Reason.ofI32, h0, h1, h2, h3, if_false]
  rfl

/-- Witness for C10 at the concrete enum value 9. -/
theorem c10_unknown_reason_witness :
    SyncErrorReason.fromBytes (writeVarint 8 ++ writeVarint 9) =
      some ⟨Reason.UNKNOWN, []⟩ :=
  c10_unknown_reason_decodes_to_UNKNOWN 9 (by decide) (by decide) (by decide) (by decide)

/-! ## Envelope variant selection (last variant tag wins) -/

/-- The wire tag associated with each populated variant of the oneof;
0 for the empty variant (no tag writes it). -/
def OneOfmsg.tagOf : OneOfmsg → Nat
  | .sync_message _ => 10
  | .sync_error _ => 18
  | .available_documents _ => 26
  | .request_available_documents _ => 34
  | .request_document _ => 42
  | .document _ => 50
  | .None => 0

def isVariantTag (t : Nat) : Bool := decide (t ∈ variantTags)

theorem getLast?_getD_cons (a d : Nat) (l : List Nat) :
    ((a :: l).getLast?).getD d = (l.getLast?).getD a := by
  cases l with
  | nil => rfl
  | cons b tl =>
    rw [List.getLast?_cons_cons]
    cases hl : (b :: tl).getLast? with
    | none => simp [List.getLast?_eq_none_iff] at hl
    | some x => rfl

/-- Processing one recognized envelope tag leaves exactly that tag's
variant in the accumulator; an unrecognized tag leaves it unchanged. -/
theorem msgStep_tagOf (acc acc2 : Message) (t : Nat) (bs r2 : Bytes)
    (h : msgStep acc t bs = some (acc2, r2)) :
    (t ∈ variantTags ∧ acc2.msg.tagOf = t) ∨ (t ∉ variantTags ∧ acc2 = acc) := by
  unfold msgStep at h
  split_ifs at h with h10 h18 h26 h34 h42 h50
  · subst h10
    left
    cases hf : readMsgField DocumentSyncMessage.fromBytes bs with
    | none => rw [hf] at h; cases h
    | some p =>
      rw [hf] at h
      simp only [Option.map_some', Option.some.injEq, Prod.mk.injEq] at h
      exact ⟨by decide, by rw [← h.1]; rfl⟩
  · subst h18
    left
    cases hf : readMsgField DocumentSyncError.fromBytes bs with
    | none => rw [hf] at h; cases h
    | some p =>
      rw [hf] at h
      simp only [Option.map_some', Option.some.injEq, Prod.mk.injEq] at h
      exact ⟨by decide, by rw [← h.1]; rfl⟩
  · subst h26
    left
    cases hf : readMsgField AvailableDocuments.fromBytes bs with
    | none => rw [hf] at h; cases h
    | some p =>
      rw [hf] at h
      simp only [Option.map_some', Option.some.injEq, Prod.mk.injEq] at h
      exact ⟨by decide, by rw [← h.1]; rfl⟩
  · subst h34
    left
    cases hf : readMsgField RequestAvailableDocuments.fromBytes bs with
    | none => rw [hf] at h; cases h
    | some p =>
      rw [hf] at h
      simp only [Option.map_some', Option.some.injEq, Prod.mk.injEq] at h
      exact ⟨by decide, by rw [← h.1]; rfl⟩
  · subst h42
    left
    cases hf : readMsgField RequestDocument.fromBytes bs with
    | none => rw [hf] at h; cases h
    | some p =>
      rw [hf] at h
      simp only [Option.map_some', Option.some.injEq, Prod.mk.injEq] at h
      exact ⟨by decide, by rw [← h.1]; rfl⟩
  · subst h50
    left
    cases hf : readMsgField Document.fromBytes bs with
    | none => rw [hf] at h; cases h
    | some p =>
      rw [hf] at h
      simp only [Option.map_some', Option.some.injEq, Prod.mk.injEq] at h
      exact ⟨by decide, by rw [← h.1]; rfl⟩
  · right
    refine ⟨?_, ?_⟩
    · intro hmem
      simp only [variantTags, List.mem_cons, List.not_mem_nil, or_false] at hmem
      omega
    · cases hu : readUnknown t bs with
      | none => rw [hu] at h; cases h
      | some r =>
        rw [hu] at h
        simp only [Option.map_some', Option.some.injEq, Prod.mk.injEq] at h
        exact h.1.symm

theorem msgTrace_lastTag :
    ∀ fuel (acc : Message) (bs : Bytes) (m : Message) (tr : List Nat),
      decodeFieldsTrace msgStep fuel acc bs = some (m, tr) →
      m.msg.tagOf = ((tr.filter isVariantTag).getLast?).getD acc.msg.tagOf := by
  intro fuel
  induction fuel with
  | zero => intro acc bs m tr h; cases h
  | succ f ih =>
    intro acc bs m tr h
    cases bs with
    | nil =>
      simp only [decodeFieldsTrace, Option.some.injEq, Prod.mk.injEq] at h
      obtain ⟨rfl, rfl⟩ := h
      simp
    | cons b tl =>
      simp only [decodeFieldsTrace] at h
      cases hr : readVarint (b :: tl) with
      | none => simp only [hr] at h; cases h
      | some p =>
        obtain ⟨t, rest⟩ := p
        simp only [hr] at h
        cases hs : msgStep acc t rest with
        | none => simp only [hs] at h; cases h
        | some q =>
          obtain ⟨acc2, rest2⟩ := q
          simp only [hs] at h
          cases hd : decodeFieldsTrace msgStep f acc2 rest2 with
          | none => rw [hd] at h; cases h
          | some w =>
            obtain ⟨m2, tr2⟩ := w
            rw [hd] at h
            simp only [Option.map_some', Option.some.injEq, Prod.mk.injEq] at h
            obtain ⟨h1, h2⟩ := h
            subst h1
            rw [← h2]
            have hstep := msgStep_tagOf acc acc2 t rest rest2 hs
            rcases hstep with ⟨hmem, htag⟩ | ⟨hnmem, rfl⟩
            · rw [List.filter_cons_of_pos (by simp [isVariantTag, hmem]),
                getLast?_getD_cons, ← htag]
              exact ih acc2 rest2 m2 tr2 hd
            · rw [List.filter_cons_of_neg (by simp [isVariantTag, hnmem])]
              exact ih _ rest2 m2 tr2 hd

/-- C6: envelope variant selection.  For every byte sequence accepted
by the Message decoder, the decoded envelope holds exactly the variant
of the last variant tag (10, 18, 26, 34, 42, 50, in definition order
for fields 1-6) appearing in the input, and when no variant tag appears
the result is the distinguished empty variant (tag-code 0). -/
theorem c6_last_variant_tag_wins (bs : Bytes) (m : Message)
    (h : Message.fromBytes bs = some m) :
    ∃ tr, Message.fromBytesTrace bs = some (m, tr) ∧
      m.msg.tagOf = ((tr.filter isVariantTag).getLast?).getD 0 := by
  have hb := decodeFields_eq_trace msgStep (bs.length + 1) Message.default bs
  rw [msg_fromBytes_runDec] at h
  unfold runDec at h
  rw [hb] at h
  cases ht : decodeFieldsTrace msgStep (bs.length + 1) Message.default bs with
  | none => rw [ht] at h; cases h
  | some q =>
    obtain ⟨m2, tr⟩ := q
    rw [ht] at h
    simp only [Option.map_some', Option.some.injEq] at h
    subst h
    refine ⟨tr, ht, ?_⟩
    exact msgTrace_lastTag (bs.length + 1) Message.default bs m2 tr ht

/-- Witness for C6 at a concrete accepted input holding a sync_message
field followed by a sync_error field: the later tag 18 wins. -/
theorem c6_last_variant_tag_wins_witness :
    ∃ tr, Message.fromBytesTrace [10, 0, 18, 0] =
        some (⟨.sync_error ⟨[], none⟩⟩, tr) ∧
      (Message.mk (.sync_error ⟨[], none⟩)).msg.tagOf =
        ((tr.filter isVariantTag).getLast?).getD 0 :=
  c6_last_variant_tag_wins [10, 0, 18, 0] ⟨.sync_error ⟨[], none⟩⟩ rfl

/-! ## Overlay orchestration actor (swarm_dispatch.rs)

Peer identities are Nat; a multiaddress is a list of protocol
components.  The SDK engine calls (dial, bootstrap, start_providing,
listen_on) are external primitives: their Result values are consumed by
the Rust code with logging on both arms, except listen_on whose Ok is
assumed (the code unwraps it); the model records the listen attempt
itself, which is what the claims are about.  The unwrap of the optional
relay limit and of its optional duration is modelled exactly: a missing
value makes the handler return none (panic). -/

inductive Proto
  | p2p (peer : Nat)
  | p2pCircuit
  | other (n : Nat)
  deriving DecidableEq, Repr

abbrev Multiaddr := List Proto

/-- The optional limit attached by the relay to reservations and
circuits, carrying an optional duration. -/
structure RelayLimit where
  duration : Option Nat
  deriving DecidableEq, Repr

/-- The overlay events matched by SwarmManager::handle_swarm_event,
with the fields the handler reads. -/
inductive SwarmEvt
  | newListenAddr (addr : Multiaddr)
  | outgoingConnectionError (peer : Option Nat)
  | connectionClosed (peer : Nat) (relayed : Bool)
  | connectionEstablished (peer : Nat)
  | identifySent (peer : Nat)
  | autonatTested (ok : Bool)
  | identifyReceived (peer : Nat)
  | kadQueryProgressed (kind : Nat) (ok : Bool)
  | reservationAccepted (relayPeer : Nat) (renewal : Bool) (limit : Option RelayLimit)
  | outboundCircuitEstablished (relayPeer : Nat) (limit : Option RelayLimit)
  | inboundCircuitEstablished (srcPeer : Nat) (limit : Option RelayLimit)
  | dcutr (peer : Nat) (ok : Bool)
  deriving DecidableEq, Repr

structure SwarmCfg where
  relay_peer_id : Nat
  relay_address : Multiaddr
  deriving Repr

/-- The SwarmManager state mutated by handle_swarm_event, plus the
observable engine effects tracked: every address passed to listen_on
and the number of kademlia bootstrap starts. -/
structure SwarmState where
  sent_identify : Bool
  received_identify : Bool
  listens : List Multiaddr
  bootstraps : Nat
  deriving DecidableEq, Repr

def SwarmState.start : SwarmState := ⟨false, false, [], 0⟩

/-- The circuit address: relay_address / p2p(relay_peer) / p2p-circuit. -/
def circuitAddr (cfg : SwarmCfg) : Multiaddr :=
  cfg.relay_address ++ [Proto.p2p cfg.relay_peer_id, Proto.p2pCircuit]

/-- SwarmManager::handle_swarm_event (lines 153-316).  Returns none
exactly where the Rust code panics on remote-supplied data: the unwrap
of the optional limit (and of its optional duration) in the three relay
client arms. -/
def handleSwarmEvent (cfg : SwarmCfg) (st : SwarmState) : SwarmEvt → Option SwarmState
  | .newListenAddr _ => some st
  | .outgoingConnectionError _ => some st
  | .connectionClosed _ _ => some st
  | .connectionEstablished p =>
    if p = cfg.relay_peer_id then some { st with bootstraps := st.bootstraps + 1 }
    else some st
  | .identifySent _ => some { st with sent_identify := true }
  | .autonatTested _ => some st
  | .identifyReceived p =>
    if p = cfg.relay_peer_id ∧ st.sent_identify = true then
      some { st with received_identify := true, listens := st.listens ++ [circuitAddr cfg] }
    else
      some { st with received_identify := true }
  | .kadQueryProgressed _ _ => some st
  | .reservationAccepted _ _ limit =>
    match limit with
    | some l =>
      match l.duration with
      | some _ => some st
      | none => none
    | none => none
  | .outboundCircuitEstablished _ limit =>
    match limit with
    | some l =>
      match l.duration with
      | some _ => some st
      | none => none
    | none => none
  | .inboundCircuitEstablished _ limit =>
    match limit with
    | some l =>
      match l.duration with
      | some _ => some st
      | none => none
    | none => none
  | .dcutr _ _ => some st

/-- Folding handle_swarm_event over a sequence of observed events. -/
def runSwarmEvents (cfg : SwarmCfg) : SwarmState → List SwarmEvt → Option SwarmState
  | st, [] => some st
  | st, e :: tl =>
    match handleSwarmEvent cfg st e with
    | some st1 => runSwarmEvents cfg st1 tl
    | none => none

/-! ## C2: bootstrap ordering -/

theorem nil_split_iff {α : Type} (x : α) :
    (∃ l1 l3, ([] : List α) = l1 ++ x :: l3) ↔ False := by
  constructor
  · rintro ⟨l1, l3, h⟩
    cases l1 <;> simp at h
  · intro h
    exact h.elim

theorem cons_split_pred {α : Type} (e x : α) (tl : List α) (P : List α → Prop) :
    (∃ l1 l3, e :: tl = l1 ++ x :: l3 ∧ P l1) ↔
      (e = x ∧ P []) ∨ (∃ l1 l3, tl = l1 ++ x :: l3 ∧ P (e :: l1)) := by
  constructor
  · rintro ⟨l1, l3, heq, hp⟩
    cases l1 with
    | nil =>
      simp only [List.nil_append, List.cons.injEq] at heq
      exact Or.inl ⟨heq.1, hp⟩
    | cons a l1t =>
      simp only [List.cons_append, List.cons.injEq] at heq
      obtain ⟨rfl, h2⟩ := heq
      exact Or.inr ⟨l1t, l3, h2, hp⟩
  · rintro (⟨rfl, hp⟩ | ⟨l1, l3, heq, hp⟩)
    · exact ⟨[], tl, rfl, hp⟩
    · exact ⟨e :: l1, l3, by rw [heq]; rfl, hp⟩

theorem cons_split {α : Type} (e x : α) (tl : List α) :
    (∃ l1 l3, e :: tl = l1 ++ x :: l3) ↔
      e = x ∨ (∃ l1 l3, tl = l1 ++ x :: l3) := by
  constructor
  · rintro ⟨l1, l3, heq⟩
    rcases (cons_split_pred e x tl (fun _ => True)).mp ⟨l1, l3, heq, trivial⟩ with
      ⟨h1, _⟩ | ⟨l1b, l3b, h2, _⟩
    · exact Or.inl h1
    · exact Or.inr ⟨l1b, l3b, h2⟩
  · rintro (rfl | ⟨l1, l3, heq⟩)
    · exact ⟨[], tl, rfl⟩
    · exact ⟨e :: l1, l3, by rw [heq]; rfl⟩

/-- Shifting a sent-inside split across a head event that is not an
identify-sent event. -/
theorem split_shift (e x : SwarmEvt) (tl : List SwarmEvt)
    (hs : ∀ p, e ≠ SwarmEvt.identifySent p) :
    ((∃ l1 l3, e :: tl = l1 ++ x :: l3 ∧ ∃ p, SwarmEvt.identifySent p ∈ l1) ↔
      (∃ l1 l3, tl = l1 ++ x :: l3 ∧ ∃ p, SwarmEvt.identifySent p ∈ l1)) := by
  rw [cons_split_pred]
  constructor
  · rintro (⟨_, p, hmem⟩ | ⟨l1, l3, heq, p, hmem⟩)
    · simp at hmem
    · rcases List.mem_cons.mp hmem with hpe | hin
      · exact absurd hpe.symm (hs p)
      · exact ⟨l1, l3, heq, p, hin⟩
  · rintro ⟨l1, l3, heq, p, hmem⟩
    exact Or.inr ⟨l1, l3, heq, p, List.mem_cons_of_mem e hmem⟩

/-- When the head is an identify-sent event, a later receive from x
with a sent event before it is exactly a split of the tail. -/
theorem split_sent_head (q : Nat) (x : SwarmEvt) (tl : List SwarmEvt)
    (he : SwarmEvt.identifySent q ≠ x) :
    ((∃ l1 l3, SwarmEvt.identifySent q :: tl = l1 ++ x :: l3 ∧
        ∃ p, SwarmEvt.identifySent p ∈ l1) ↔
      (∃ l1 l3, tl = l1 ++ x :: l3)) := by
  rw [cons_split_pred]
  constructor
  · rintro (⟨h1, _⟩ | ⟨l1, l3, heq, _⟩)
    · exact absurd h1 he
    · exact ⟨l1, l3, heq⟩
  · rintro ⟨l1, l3, heq⟩
    exact Or.inr ⟨l1, l3, heq, q, List.mem_cons_self _ _⟩

theorem split_weaken {α : Type} {x : α} {tl : List α} {P : List α → Prop}
    (h : ∃ l1 l3, tl = l1 ++ x :: l3 ∧ P l1) : ∃ l1 l3, tl = l1 ++ x :: l3 := by
  obtain ⟨l1, l3, heq, _⟩ := h
  exact ⟨l1, l3, heq⟩

/-- Characterization of circuit-listen attempts over any run of the
event handler, generalized over the initial state. -/
theorem runSwarm_listens_iff (cfg : SwarmCfg) :
    ∀ (tr : List SwarmEvt) (s r : Bool) (L : List Multiaddr) (nb : Nat) (st : SwarmState),
      runSwarmEvents cfg ⟨s, r, L, nb⟩ tr = some st →
      (st.listens ≠ [] ↔
        L ≠ [] ∨
        (s = true ∧ ∃ l1 l3, tr = l1 ++ SwarmEvt.identifyReceived cfg.relay_peer_id :: l3) ∨
        (∃ l1 l3, tr = l1 ++ SwarmEvt.identifyReceived cfg.relay_peer_id :: l3 ∧
          ∃ p, SwarmEvt.identifySent p ∈ l1)) := by
  intro tr
  induction tr with
  | nil =>
    intro s r L nb st h
    simp only [runSwarmEvents, Option.some.injEq] at h
    subst h
    simp [nil_split_iff]
  | cons e tl ih =>
    intro s r L nb st h
    cases e with
    | identifySent q =>
      simp [runSwarmEvents, handleSwarmEvent] at h
      rw [ih true r L nb st h,
        split_sent_head q _ tl (by simp),
        cons_split (SwarmEvt.identifySent q) _ tl]
      have hqr : (SwarmEvt.identifySent q = SwarmEvt.identifyReceived cfg.relay_peer_id) ↔
          False := by simp
      rw [hqr]
      have hBA : (∃ l1 l3, tl = l1 ++ SwarmEvt.identifyReceived cfg.relay_peer_id :: l3 ∧
          ∃ p, SwarmEvt.identifySent p ∈ l1) →
          ∃ l1 l3, tl = l1 ++ SwarmEvt.identifyReceived cfg.relay_peer_id :: l3 :=
        split_weaken
      simp only [eq_self_iff_true, true_and]
      itauto
    | identifyReceived q =>
      by_cases hq : q = cfg.relay_peer_id
      · subst hq
        by_cases hs2 : s = true
        · subst hs2
          simp [runSwarmEvents, handleSwarmEvent] at h
          rw [ih true true (L ++ [circuitAddr cfg]) nb st h]
          have h1 : L ++ [circuitAddr cfg] ≠ [] := by simp
          have h2 : ∃ l1 l3, SwarmEvt.identifyReceived cfg.relay_peer_id :: tl =
              l1 ++ SwarmEvt.identifyReceived cfg.relay_peer_id :: l3 := ⟨[], tl, rfl⟩
          constructor
          · intro _
            exact Or.inr (Or.inl ⟨rfl, h2⟩)
          · intro _
            exact Or.inl h1
        · have hsf : s = false := by revert hs2; cases s <;> simp
          subst hsf
          simp [runSwarmEvents, handleSwarmEvent] at h
          rw [ih false true L nb st h,
            split_shift _ _ tl (by intro p2; simp),
            cons_split (SwarmEvt.identifyReceived cfg.relay_peer_id) _ tl]
          simp only [Bool.false_eq_true, false_and, false_or]
      · simp [runSwarmEvents, handleSwarmEvent, hq] at h
        rw [ih s true L nb st h,
          split_shift _ _ tl (by intro p2; simp),
          cons_split (SwarmEvt.identifyReceived q) _ tl]
        have hqr : (SwarmEvt.identifyReceived q = SwarmEvt.identifyReceived cfg.relay_peer_id) ↔
            False := by simp [hq]
        rw [hqr]
        itauto
    | connectionEstablished p =>
      by_cases hp : p = cfg.relay_peer_id
      · simp [runSwarmEvents, handleSwarmEvent, hp] at h
        rw [ih s r L (nb + 1) st h,
          split_shift _ _ tl (by intro p2; simp),
          cons_split (SwarmEvt.connectionEstablished p) _ tl]
        have hqr : (SwarmEvt.connectionEstablished p =
            SwarmEvt.identifyReceived cfg.relay_peer_id) ↔ False := by simp
        rw [hqr]
        itauto
      · simp [runSwarmEvents, handleSwarmEvent, hp] at h
        rw [ih s r L nb st h,
          split_shift _ _ tl (by intro p2; simp),
          cons_split (SwarmEvt.connectionEstablished p) _ tl]
        have hqr : (SwarmEvt.connectionEstablished p =
            SwarmEvt.identifyReceived cfg.relay_peer_id) ↔ False := by simp
        rw [hqr]
        itauto
    | newListenAddr a =>
      simp [runSwarmEvents, handleSwarmEvent] at h
      rw [ih s r L nb st h,
        split_shift _ _ tl (by intro p2; simp),
        cons_split (SwarmEvt.newListenAddr a) _ tl]
      have hqr : (SwarmEvt.newListenAddr a =
          SwarmEvt.identifyReceived cfg.relay_peer_id) ↔ False := by simp
      rw [hqr]
      itauto
    | outgoingConnectionError p =>
      simp [runSwarmEvents, handleSwarmEvent] at h
      rw [ih s r L nb st h,
        split_shift _ _ tl (by intro p2; simp),
        cons_split (SwarmEvt.outgoingConnectionError p) _ tl]
      have hqr : (SwarmEvt.outgoingConnectionError p =
          SwarmEvt.identifyReceived cfg.relay_peer_id) ↔ False := by simp
      rw [hqr]
      itauto
    | connectionClosed p rl =>
      simp [runSwarmEvents, handleSwarmEvent] at h
      rw [ih s r L nb st h,
        split_shift _ _ tl (by intro p2; simp),
        cons_split (SwarmEvt.connectionClosed p rl) _ tl]
      have hqr : (SwarmEvt.connectionClosed p rl =
          SwarmEvt.identifyReceived cfg.relay_peer_id) ↔ False := by simp
      rw [hqr]
      itauto
    | autonatTested ok =>
      simp [runSwarmEvents, handleSwarmEvent] at h
      rw [ih s r L nb st h,
        split_shift _ _ tl (by intro p2; simp),
        cons_split (SwarmEvt.autonatTested ok) _ tl]
      have hqr : (SwarmEvt.autonatTested ok =
          SwarmEvt.identifyReceived cfg.relay_peer_id) ↔ False := by simp
      rw [hqr]
      itauto
    | kadQueryProgressed k ok =>
      simp [runSwarmEvents, handleSwarmEvent] at h
      rw [ih s r L nb st h,
        split_shift _ _ tl (by intro p2; simp),
        cons_split (SwarmEvt.kadQueryProgressed k ok) _ tl]
      have hqr : (SwarmEvt.kadQueryProgressed k ok =
          SwarmEvt.identifyReceived cfg.relay_peer_id) ↔ False := by simp
      rw [hqr]
      itauto
    | reservationAccepted rp rn limit =>
      cases limit with
      | none =>
        simp [runSwarmEvents, handleSwarmEvent] at h
      | some l =>
        cases hd : l.duration with
        | none => simp [runSwarmEvents, handleSwarmEvent, hd] at h
        | some d =>
          simp [runSwarmEvents, handleSwarmEvent, hd] at h
          rw [ih s r L nb st h,
            split_shift _ _ tl (by intro p2; simp),
            cons_split (SwarmEvt.reservationAccepted rp rn (some l)) _ tl]
          have hqr : (SwarmEvt.reservationAccepted rp rn (some l) =
              SwarmEvt.identifyReceived cfg.relay_peer_id) ↔ False := by simp
          rw [hqr]
          itauto
    | outboundCircuitEstablished rp limit =>
      cases limit with
      | none =>
        simp [runSwarmEvents, handleSwarmEvent] at h
      | some l =>
        cases hd : l.duration with
        | none => simp [runSwarmEvents, handleSwarmEvent, hd] at h
        | some d =>
          simp [runSwarmEvents, handleSwarmEvent, hd] at h
          rw [ih s r L nb st h,
            split_shift _ _ tl (by intro p2; simp),
            cons_split (SwarmEvt.outboundCircuitEstablished rp (some l)) _ tl]
          have hqr : (SwarmEvt.outboundCircuitEstablished rp (some l) =
              SwarmEvt.identifyReceived cfg.relay_peer_id) ↔ False := by simp
          rw [hqr]
          itauto
    | inboundCircuitEstablished sp limit =>
      cases limit with
      | none =>
        simp [runSwarmEvents, handleSwarmEvent] at h
      | some l =>
        cases hd : l.duration with
        | none => simp [runSwarmEvents, handleSwarmEvent, hd] at h
        | some d =>
          simp [runSwarmEvents, handleSwarmEvent, hd] at h
          rw [ih s r L nb st h,
            split_shift _ _ tl (by intro p2; simp),
            cons_split (SwarmEvt.inboundCircuitEstablished sp (some l)) _ tl]
          have hqr : (SwarmEvt.inboundCircuitEstablished sp (some l) =
              SwarmEvt.identifyReceived cfg.relay_peer_id) ↔ False := by simp
          rw [hqr]
          itauto
    | dcutr p ok =>
      simp only [runSwarmEvents, handleSwarmEvent] at h
      rw [ih s r L nb st h,
        split_shift _ _ tl (by intro p2; simp),
        cons_split (SwarmEvt.dcutr p ok) _ tl]
      have hqr : (SwarmEvt.dcutr p ok =
          SwarmEvt.identifyReceived cfg.relay_peer_id) ↔ False := by simp
      rw [hqr]
      itauto

/-- C2 counterexample: with relay peer 7, the event sequence
IdentifyReceived(7) then IdentifySent(7) sets both identify flags via
relay-peer identify events, yet no circuit listen is ever attempted
(listens stays empty): listening is not attempted when the receive
arrives before the send, so it is not equivalent to both flags being
true regardless of arrival order. -/
theorem c2_bootstrap_order_counterexample :
    runSwarmEvents ⟨7, [Proto.other 0]⟩ SwarmState.start
        [SwarmEvt.identifyReceived 7, SwarmEvt.identifySent 7] =
      some ⟨true, true, [], 0⟩ ∧
    SwarmEvt.identifySent 7 ∈ [SwarmEvt.identifyReceived 7, SwarmEvt.identifySent 7] ∧
    SwarmEvt.identifyReceived 7 ∈ [SwarmEvt.identifyReceived 7, SwarmEvt.identifySent 7] :=
  ⟨rfl, by decide, by decide⟩

/-- C2 (amended): over every event sequence the actor survives,
listening on the circuit address is attempted if and only if some
IdentifyReceived event whose peer is the relay peer arrives strictly
after some IdentifySent event — the sent flag being set by IdentifySent
from any peer, not just the relay. -/
theorem c2_circuit_listen_iff_sent_before_received (cfg : SwarmCfg)
    (tr : List SwarmEvt) (st : SwarmState)
    (h : runSwarmEvents cfg SwarmState.start tr = some st) :
    (st.listens ≠ [] ↔
      ∃ l1 l3, tr = l1 ++ SwarmEvt.identifyReceived cfg.relay_peer_id :: l3 ∧
        ∃ p, SwarmEvt.identifySent p ∈ l1) := by
  have hiff := runSwarm_listens_iff cfg tr false false [] 0 st h
  simpa using hiff

/-- Witness for the amended C2 at the concrete send-then-receive trace:
the listen is attempted and the split exists. -/
theorem c2_circuit_listen_iff_witness :
    ((⟨true, true, [circuitAddr ⟨7, [Proto.other 0]⟩], 0⟩ : SwarmState).listens ≠ [] ↔
      ∃ l1 l3, [SwarmEvt.identifySent 7, SwarmEvt.identifyReceived 7] =
          l1 ++ SwarmEvt.identifyReceived 7 :: l3 ∧
        ∃ p, SwarmEvt.identifySent p ∈ l1) :=
  c2_circuit_listen_iff_sent_before_received ⟨7, [Proto.other 0]⟩
    [SwarmEvt.identifySent 7, SwarmEvt.identifyReceived 7]
    ⟨true, true, [circuitAddr ⟨7, [Proto.other 0]⟩], 0⟩ rfl

/-- C5: a RelayClient ReservationReqAccepted event whose optional limit
is absent makes handle_swarm_event panic (the code unwraps the limit
and its duration), contradicting the requirement that every overlay
event is logged and looped past without an unrecoverable failure. -/
theorem c5_reservation_limit_unwrap_panics :
    handleSwarmEvent ⟨7, [Proto.other 0]⟩ SwarmState.start
      (SwarmEvt.reservationAccepted 7 false none) = none := rfl

/-! ## The actor run loops (C9) -/

/-- The commands of swarm_dispatch.rs SwarmCommand. -/
inductive SwarmCommand
  | dial (addr : Multiaddr)
  | dialPeerId (peer : Nat)
  | beginProviderRole (key : Nat)
  | stopProviderRole (key : Nat)
  | findProviders (key : Nat)
  | listConnections
  | putTestValue (key value : Bytes)
  | getTestValue (key : Bytes)
  deriving DecidableEq, Repr

/-- Command handling in SwarmManager::run: every arm calls an engine
primitive and logs its result (both Ok and Err arms log); none touches
the bootstrap flags or attempts a listen. -/
def handleSwarmCommand (st : SwarmState) : SwarmCommand → SwarmState
  | .dial _ => st
  | .dialPeerId _ => st
  | .beginProviderRole _ => st
  | .stopProviderRole _ => st
  | .findProviders _ => st
  | .listConnections => st
  | .putTestValue _ _ => st
  | .getTestValue _ => st

inductive LoopExit
  | graceful
  | inputsExhausted
  deriving DecidableEq, Repr

/-- One arrival at the SwarmManager select loop: an engine event, or a
command-channel receive (none when the channel is closed). -/
inductive SwarmInput
  | evt (e : SwarmEvt)
  | cmd (c : Option SwarmCommand)

/-- SwarmManager::run (lines 60-151): the select loop.  A none from
the command channel logs and breaks; events go through
handle_swarm_event (whose panics propagate). -/
def swarmRun (cfg : SwarmCfg) : SwarmState → List SwarmInput → Option (SwarmState × LoopExit)
  | st, [] => some (st, .inputsExhausted)
  | st, .evt e :: tl =>
    match handleSwarmEvent cfg st e with
    | some st1 => swarmRun cfg st1 tl
    | none => none
  | st, .cmd (some c) :: tl => swarmRun cfg (handleSwarmCommand st c) tl
  | st, .cmd none :: _ => some (st, .graceful)

/-- The single command of database_manager.rs. -/
inductive DatabaseCommand
  | requestUpgradeToProvider (addr : Multiaddr)
  deriving DecidableEq, Repr

/-- One arrival at the DatabaseManager select loop: a command-channel
receive (none when closed) or a broadcast receive (the bool is Ok/Err:
a lagged or closed broadcast yields Err, which the loop ignores). -/
inductive DbInput
  | cmd (c : Option DatabaseCommand)
  | evt (ok : Bool)

/-- DatabaseManager::run (lines 45-66): returns the commands it
handled, in order, and how the loop ended.  handle_swarm_event of this
actor has an empty body, so events are consumed without effect. -/
def dbRun : List DbInput → List DatabaseCommand × LoopExit
  | [] => ([], .inputsExhausted)
  | .cmd (some c) :: tl =>
    let r := dbRun tl
    (c :: r.1, r.2)
  | .cmd none :: _ => ([], .graceful)
  | .evt _ :: tl => dbRun tl

/-- C9: graceful shutdown on channel close.  When the command inlet
yields none (all senders dropped), both the Orchestration Actor's and
the database manager's run loops exit gracefully at once: no error, no
panic, and no further input is processed (the result is independent of
everything after the close, and the state is returned unchanged). -/
theorem c9_channel_close_graceful_shutdown :
    (∀ (cfg : SwarmCfg) (st : SwarmState) (rest : List SwarmInput),
      swarmRun cfg st (SwarmInput.cmd none :: rest) = some (st, LoopExit.graceful)) ∧
    (∀ rest : List DbInput,
      dbRun (DbInput.cmd none :: rest) = ([], LoopExit.graceful)) :=
  ⟨fun _ _ _ => rfl, fun _ => rfl⟩

/-! ## Connection handler (handler.rs) -/

/-- The commands of handler.rs Command. -/
inductive Command
  | startSync (document_id : Bytes) (peer : Nat)
  | sendChanges (document_id : Bytes) (changes : Bytes) (peer : Nat)
  | broadcastChanges (document_id : Bytes) (changes : Bytes)
  | requestSync (document_id : Bytes) (peer : Nat)
  deriving DecidableEq, Repr

/-- Handler state: two Vec buffers.  A Vec push appends at the end and
a Vec pop removes from the end.  The pending_events element type in the
source is an autonat client event never constructed by this crate;
modelled as an opaque numeric payload. -/
structure Handler where
  pending_commands : List Command
  pending_events : List Nat
  deriving DecidableEq, Repr

def Handler.new : Handler := ⟨[], []⟩

/-- Handler::on_behaviour_event (lines 88-90): Vec::push. -/
def Handler.on_behaviour_event (h : Handler) (c : Command) : Handler :=
  { h with pending_commands := h.pending_commands ++ [c] }

/-- What one call of Handler::poll can return: NotifyBehaviour, an
outbound substream request (constructible in the return type, never
returned by this code), or Poll::Pending. -/
inductive HandlerPollResult
  | notifyBehaviour (e : Nat)
  | outboundSubstreamRequest
  | pending
  deriving DecidableEq, Repr

/-- Handler::poll (lines 66-86): pop the last pending event if any and
notify the behaviour; otherwise pop the last pending command, log it as
unhandled, discard it, and return Pending. -/
def Handler.poll (h : Handler) : Handler × HandlerPollResult :=
  match h.pending_events.getLast? with
  | some e => ({ h with pending_events := h.pending_events.dropLast }, .notifyBehaviour e)
  | none =>
    match h.pending_commands.getLast? with
    | some _ => ({ h with pending_commands := h.pending_commands.dropLast }, .pending)
    | none => (h, .pending)

/-- C3 evidence: submitting two commands before the stream opens and
polling removes the most recently submitted command first and discards
it with a log — no wire write happens; moreover no poll result of this
handler is ever an outbound substream request (second conjunct), so no
write path exists at all.  This contradicts first-in-first-out
exactly-once wire delivery. -/
theorem c3_commands_popped_lifo_and_dropped :
    ((Handler.new.on_behaviour_event (Command.startSync [97] 1)).on_behaviour_event
        (Command.broadcastChanges [98] [99])).poll =
      (⟨[Command.startSync [97] 1], []⟩, HandlerPollResult.pending) ∧
    ∀ h : Handler, (h.poll).2 = HandlerPollResult.pending ∨
      ∃ e, (h.poll).2 = HandlerPollResult.notifyBehaviour e := by
  refine ⟨rfl, ?_⟩
  intro h
  rcases hl : h.pending_events.getLast? with _ | e
  · rcases hc : h.pending_commands.getLast? with _ | c
    · left
      simp [Handler.poll, hl, hc]
    · left
      simp [Handler.poll, hl, hc]
  · right
    exact ⟨e, by simp [Handler.poll, hl]⟩

/-! ## Sync coordinator behaviour (behaviour.rs) -/

/-- The Event enum of behaviour.rs (to the application). -/
inductive AmEvent
  | documentSynced (peer : Nat) (document_id : Bytes)
  | documentChanged (peer : Nat) (document_id : Bytes)
  | syncRequested (peer : Nat) (document_id : Bytes)
  | syncError (peer : Nat) (document_id : Bytes) (error : Bytes)
  deriving DecidableEq, Repr

/-- An item of the behaviour's queued_events: an event for the swarm or
a command addressed to a connection handler. -/
inductive AmToSwarm
  | generateEvent (e : AmEvent)
  | notifyHandler (peer : Nat) (c : Command)
  deriving DecidableEq, Repr

/-- The Behaviour state of behaviour.rs (lines 35-42). -/
structure AmBehaviour where
  queued_events : List AmToSwarm
  active_syncs : List (Nat × Bytes)
  pending_commands : List ((Nat × Bytes) × List Command)
  deriving DecidableEq, Repr

def AmBehaviour.new : AmBehaviour := ⟨[], [], []⟩

/-- The swarm lifecycle events delivered to on_swarm_event. -/
inductive AmFromSwarm
  | connectionEstablished (peer : Nat)
  | connectionClosed (peer : Nat)
  | otherSwarm (n : Nat)
  deriving DecidableEq, Repr

/-- Behaviour::on_swarm_event (line 82): the body is empty — every
swarm event, including ConnectionClosed, is ignored. -/
def AmBehaviour.on_swarm_event (b : AmBehaviour) (_e : AmFromSwarm) : AmBehaviour := b

/-- Behaviour::on_connection_handler_event (lines 84-99): logs the
event and does nothing. -/
def AmBehaviour.on_connection_handler_event (b : AmBehaviour) (_peer _cid : Nat) (_e : Nat) :
    AmBehaviour := b

/-- Behaviour::poll (lines 101-112): pop the front queued event. -/
def AmBehaviour.pollNext (b : AmBehaviour) : AmBehaviour × Option AmToSwarm :=
  match b.queued_events with
  | e :: tl => ({ b with queued_events := tl }, some e)
  | [] => (b, none)

/-- The operations the swarm can invoke on the Behaviour. -/
inductive AmOp
  | swarm (e : AmFromSwarm)
  | handler (peer cid : Nat) (e : Nat)
  | pollOp

def AmBehaviour.applyOp (b : AmBehaviour) : AmOp → AmBehaviour
  | .swarm e => b.on_swarm_event e
  | .handler p c e => b.on_connection_handler_event p c e
  | .pollOp => (b.pollNext).1

/-- A reachable Behaviour state: new() followed by any operations. -/
def runAm (ops : List AmOp) : AmBehaviour :=
  ops.foldl AmBehaviour.applyOp AmBehaviour.new

/-- C4 evidence: a connection-closed swarm event leaves the Behaviour
entirely unchanged — no handler is dropped, no session is marked
Errored and no SyncError event is queued, for every state. -/
theorem c4_connection_closed_is_ignored (b : AmBehaviour) (p : Nat) :
    b.on_swarm_event (AmFromSwarm.connectionClosed p) = b ∧
    (b.on_swarm_event (AmFromSwarm.connectionClosed p)).queued_events = b.queued_events ∧
    (b.on_swarm_event (AmFromSwarm.connectionClosed p)).active_syncs = b.active_syncs :=
  ⟨rfl, rfl, rfl⟩

/-- C8 evidence: in every reachable state of the Behaviour the session
list is empty — no operation ever records a session, so two StartSync
submissions leave zero sessions for the pair, not exactly one. -/
theorem c8_no_session_is_ever_created (ops : List AmOp) :
    (runAm ops).active_syncs = [] := by
  have key : ∀ (l : List AmOp) (b : AmBehaviour),
      (l.foldl AmBehaviour.applyOp b).active_syncs = b.active_syncs := by
    intro l
    induction l with
    | nil => intro b; rfl
    | cons o tl ih =>
      intro b
      rw [List.foldl_cons, ih]
      cases o with
      | swarm e => rfl
      | handler p c e => rfl
      | pollOp =>
        obtain ⟨qe, sy, pc⟩ := b
        cases qe <;> rfl
  exact key ops AmBehaviour.new
